import Mathlib

/-!
Verification of the extraction-and-consolidation pipeline of the
Financial-Automation repository.

The Python sources are shallowly embedded: pure functions become Lean
functions over `List Char` / `String`, Python dicts become ordered
association lists, and fallible code returns `Option` / `Except`.
Python floats are modelled as exact decimal numbers (`DecNum`: an integer
mantissa scaled by a power of ten); every float that the pipeline
manipulates is produced by decimal parsing and multiplication/division by
powers of ten, so the model is exact and fully executable.
Regular-expression matching that merely harvests candidate substrings is
abstracted by quantifying over the list of matches the scan produced;
every filter, cleaner, normalizer, scorer and consolidation rule is
translated statement by statement from the source files.
-/

namespace FinAuto

/-! ## Basic string machinery (Python `str` helpers over `List Char`) -/

/-- ASCII lower-casing of a character, as Python `str.lower` acts on ASCII. -/
def asciiLower (c : Char) : Char :=
  if 'A' ≤ c ∧ c ≤ 'Z' then Char.ofNat (c.toNat + 32) else c

/-- ASCII upper-casing of a character, as Python `str.upper` acts on ASCII. -/
def asciiUpper (c : Char) : Char :=
  if 'a' ≤ c ∧ c ≤ 'z' then Char.ofNat (c.toNat - 32) else c

/-- Python whitespace set used by `str.strip()` and the regex class `\s`. -/
def pySpace (c : Char) : Bool :=
  c = ' ' || c = '\t' || c = '\n' || c = '\r' || c = '\x0b' || c = '\x0c'

/-- Does `hay` start with `needle`?  (Both are character lists.) -/
def startsWithL (needle hay : List Char) : Bool :=
  match needle, hay with
  | [], _ => true
  | _ :: _, [] => false
  | a :: as, b :: bs => a = b && startsWithL as bs

/-- Python `needle in hay` substring test. -/
def subL (needle hay : List Char) : Bool :=
  match hay with
  | [] => needle.isEmpty
  | _ :: t => startsWithL needle hay || subL needle t

/-- Substring test on `String`s: Python `needle in hay`. -/
def containsS (hay needle : String) : Bool :=
  subL needle.data hay.data

/-- Lower-case a whole string. -/
def lowerS (s : String) : String := ⟨s.data.map asciiLower⟩

/-- Upper-case a whole string. -/
def upperS (s : String) : String := ⟨s.data.map asciiUpper⟩

/-- Drop trailing characters matching `p`. -/
def dropTrailing (p : Char → Bool) (l : List Char) : List Char :=
  (l.reverse.dropWhile p).reverse

/-- Python `str.strip()` (no arguments): strip whitespace from both ends. -/
def pyStrip (l : List Char) : List Char :=
  dropTrailing pySpace (l.dropWhile pySpace)

/-- `pyStrip` on a `String`. -/
def pyStripS (s : String) : String := ⟨pyStrip s.data⟩

/-- Python `str.strip('()')`: strip parentheses from both ends. -/
def stripParens (l : List Char) : List Char :=
  dropTrailing (fun c => c = '(' || c = ')')
    (l.dropWhile (fun c => c = '(' || c = ')'))

/-- Number of occurrences of a character (Python `str.count` for 1-char). -/
def countChar (c : Char) (l : List Char) : Nat :=
  (l.filter (fun d => d = c)).length

/-- Is the character an ASCII capital letter (regex class `[A-Z]`)? -/
def isAZ (c : Char) : Bool := 'A' ≤ c && c ≤ 'Z'

/-- `value.lstrip('-').strip('()')` (shared by both normalizers). -/
def stripNegative (v : List Char) : List Char :=
  stripParens (v.dropWhile (fun c => c = '-'))

/-! ## Exact decimal numbers: the model of Python floats

Every float in the pipeline arises from parsing a decimal literal and
multiplying or dividing by powers of ten, so it is exactly a
`man / 10 ^ exp`.  All operations are integer arithmetic and therefore
reduce in the kernel, keeping the whole development decidable. -/

structure DecNum where
  man : ℤ
  exp : ℕ
  deriving DecidableEq, Repr

deriving instance DecidableEq for Except

namespace DecNum

/-- The rational value denoted by a decimal number. -/
def toRat (a : DecNum) : ℚ := (a.man : ℚ) / (10 : ℚ) ^ a.exp

def ofNat (n : ℕ) : DecNum := ⟨(n : ℤ), 0⟩

def neg (a : DecNum) : DecNum := ⟨-a.man, a.exp⟩

/-- Multiplication by a natural constant. -/
def mulNat (a : DecNum) (k : ℕ) : DecNum := ⟨a.man * (k : ℤ), a.exp⟩

/-- Division by `10 ^ k` (exact). -/
def divPow10 (a : DecNum) (k : ℕ) : DecNum := ⟨a.man, a.exp + k⟩

def add (a b : DecNum) : DecNum :=
  ⟨a.man * (10 : ℤ) ^ b.exp + b.man * (10 : ℤ) ^ a.exp, a.exp + b.exp⟩

/-- Boolean `≤` via cross-multiplication. -/
def ble (a b : DecNum) : Bool :=
  a.man * (10 : ℤ) ^ b.exp ≤ b.man * (10 : ℤ) ^ a.exp

/-- Boolean `<` via cross-multiplication. -/
def blt (a b : DecNum) : Bool :=
  a.man * (10 : ℤ) ^ b.exp < b.man * (10 : ℤ) ^ a.exp

def absD (a : DecNum) : DecNum := ⟨|a.man|, a.exp⟩

def isNegB (a : DecNum) : Bool := a.man < 0

/-- Python `min(a, b)` (returns `a` on ties, like Python). -/
def minD (a b : DecNum) : DecNum := if ble a b then a else b

/-- Round half to even to an integer, as Python float formatting does. -/
def roundHalfEven (a : DecNum) : ℤ :=
  let d : ℤ := (10 : ℤ) ^ a.exp
  let f := a.man.fdiv d
  let r2 := 2 * (a.man - f * d)
  if r2 < d then f
  else if d < r2 then f + 1
  else if f % 2 = 0 then f else f + 1

end DecNum

/-! ## Decimal rendering (Python float formatting) -/

def decChar (n : Nat) : Char := Char.ofNat (48 + n)

def digitVal (c : Char) : Nat := c.toNat - 48

def natOfDigits (ds : List Char) : Nat :=
  ds.foldl (fun acc c => acc * 10 + digitVal c) 0

def natDecAux : Nat → Nat → List Char
  | 0, _ => []
  | fuel + 1, n => if n < 10 then [decChar n] else natDecAux fuel (n / 10) ++ [decChar (n % 10)]

/-- Decimal rendering of a natural number. -/
def natDec (n : Nat) : List Char := natDecAux (n + 1) n

/-- Two-digit zero-padded rendering (for the cents part of `:.2f`). -/
def pad2 (n : Nat) : List Char := if n < 10 then '0' :: [decChar n] else natDec n

/-- Python `f"{q:.2f}"`. -/
def fmt2 (q : DecNum) : String :=
  let n := DecNum.roundHalfEven (q.mulNat 100)
  let sign := if q.isNegB then "-" else ""
  let m := n.natAbs
  sign ++ (⟨natDec (m / 100)⟩ : String) ++ "." ++ (⟨pad2 (m % 100)⟩ : String)

def group3Aux : List Char → List Char
  | a :: b :: c :: d :: rest => a :: b :: c :: ',' :: group3Aux (d :: rest)
  | l => l

/-- Insert thousands separators into a digit list (Python `,` format flag). -/
def group3 (ds : List Char) : List Char := (group3Aux ds.reverse).reverse

/-- Python `f"{q:,.0f}"`. -/
def fmtComma0 (q : DecNum) : String :=
  let n := DecNum.roundHalfEven q
  let sign := if q.isNegB then "-" else ""
  sign ++ (⟨group3 (natDec n.natAbs)⟩ : String)

/-- Value of a token of shape `digits`, `digits.digits`, `digits.` or
`.digits` (Python `float` on such tokens). -/
def parseNumToken (tok : List Char) : DecNum :=
  let ip := tok.takeWhile (fun c => c.isDigit)
  match tok.dropWhile (fun c => c.isDigit) with
  | [] => ⟨(natOfDigits ip : ℤ), 0⟩
  | _ :: frac =>
    ⟨(natOfDigits ip : ℤ) * (10 : ℤ) ^ frac.length + (natOfDigits frac : ℤ), frac.length⟩

/-- First match of the regex `(\d+(?:\.\d+)?)` in a character list. -/
def findNum : List Char → Option (List Char)
  | [] => none
  | c :: rest =>
    if c.isDigit then
      let ds := (c :: rest).takeWhile (fun d => d.isDigit)
      match (c :: rest).dropWhile (fun d => d.isDigit) with
      | '.' :: r2 =>
        let fs := r2.takeWhile (fun d => d.isDigit)
        if fs.isEmpty then some ds else some (ds ++ '.' :: fs)
      | _ => some ds
    else findNum rest

/-- First match of the regex `([\d\.]+)` in a character list. -/
def findNumDots : List Char → Option (List Char)
  | [] => none
  | c :: rest =>
    if c.isDigit || c = '.' then
      some ((c :: rest).takeWhile (fun d => d.isDigit || d = '.'))
    else findNumDots rest

/-- Python `float(tok)` for a token drawn from `[\d.]+`: fails when the
token holds more than one dot or no digit at all. -/
def pyFloatOfToken (tok : List Char) : Option DecNum :=
  if 2 ≤ countChar '.' tok then none
  else if tok.all (fun c => c = '.') then none
  else some (parseNumToken tok)

/-! ## `enhanced_data_extraction.py` — `EnhancedFinancialNormalizer` -/

namespace EDE

/-- Multiplier detection from the (lower-cased, sign-stripped) value string:
the `any(indicator in value_lower ...)` chains of
`normalize_financial_value`.  Note the single-letter indicators are
substring tests, exactly as in the source. -/
def multOfValue (v : List Char) : ℕ :=
  if subL "trillion".data v || subL "trillions".data v || subL "t".data v then 1000000000000
  else if subL "billion".data v || subL "billions".data v || subL "b".data v then 1000000000
  else if subL "million".data v || subL "millions".data v || subL "m".data v then 1000000
  else if subL "thousand".data v || subL "thousands".data v || subL "k".data v then 1000
  else 1

/-- Context-phrase multiplier detection of `normalize_financial_value`. -/
def multOfContext (ctx : List Char) : ℕ :=
  if subL "in thousands".data ctx || subL "thousands of dollars".data ctx ||
      subL "thousands, except".data ctx || subL "amounts in thousands".data ctx ||
      subL "dollars in thousands".data ctx then 1000
  else if subL "in millions".data ctx || subL "millions of dollars".data ctx ||
      subL "millions, except".data ctx || subL "amounts in millions".data ctx ||
      subL "dollars in millions".data ctx then 1000000
  else if subL "in billions".data ctx || subL "billions of dollars".data ctx ||
      subL "billions, except".data ctx || subL "amounts in billions".data ctx ||
      subL "dollars in billions".data ctx then 1000000000
  else 1

/-- Combined multiplier: explicit indicators in the value first, context
phrases only when the value gave none and the context is non-empty. -/
def multiplier (vLower ctxLower : List Char) : ℕ :=
  let m := multOfValue vLower
  if m = 1 && !ctxLower.isEmpty then multOfContext ctxLower else m

/-- The smart-scaling step for bare numbers (`multiplier == 1`):
values at or above one billion are kept, values in `[100000, 1e9)` are
multiplied by 1000. -/
def smartScale (m : ℕ) (x : DecNum) : DecNum :=
  if m = 1 then
    if DecNum.ble (DecNum.ofNat 1000000000) x then x
    else if DecNum.ble (DecNum.ofNat 100000) x then x.mulNat 1000
    else x
  else x

/-- The size-based output formatting of `normalize_financial_value`. -/
def formatFinancial (x : DecNum) : String :=
  if DecNum.ble (DecNum.ofNat 1000000000000) x.absD then "$" ++ fmt2 (x.divPow10 12) ++ "T"
  else if DecNum.ble (DecNum.ofNat 1000000000) x.absD then "$" ++ fmt2 (x.divPow10 9) ++ "B"
  else if DecNum.ble (DecNum.ofNat 1000000) x.absD then "$" ++ fmt2 (x.divPow10 6) ++ "M"
  else if DecNum.ble (DecNum.ofNat 1000) x.absD then "$" ++ fmt2 (x.divPow10 3) ++ "K"
  else "$" ++ fmtComma0 x

/-- `value.replace(",", "").replace("$", "").strip()`. -/
def cleanedValue (value : String) : List Char :=
  pyStrip ((value.data.filter (fun c => c ≠ ',')).filter (fun c => c ≠ '$'))

/-- The negative-value detection of `normalize_financial_value`. -/
def isNegative (v : List Char) : Bool :=
  v.head? = some '-' || v.head? = some '(' || v.getLast? = some ')'

/-- `EnhancedFinancialNormalizer.normalize_financial_value`. -/
def normalize_financial_value (value context : String) : Option String :=
  let v1 := cleanedValue value
  let neg := isNegative v1
  let v2 := if neg then stripNegative v1 else v1
  let m := multiplier (v2.map asciiLower) (context.data.map asciiLower)
  match findNum v2 with
  | none => none
  | some tok =>
    if tok = ['.'] then none
    else
      let x0 := (parseNumToken tok).mulNat m
      let x1 := if neg then x0.neg else x0
      some (formatFinancial (smartScale m x1))

/-- `value.replace("%", "").strip()`. -/
def cleanedPercent (value : String) : List Char :=
  pyStrip (value.data.filter (fun c => c ≠ '%'))

/-- `EnhancedFinancialNormalizer.normalize_percentage`. -/
def normalize_percentage (value : String) : Option String :=
  match findNum (cleanedPercent value) with
  | none => none
  | some tok =>
    let num := parseNumToken tok
    if DecNum.blt num (DecNum.ofNat 1) then some (fmt2 (num.mulNat 100) ++ "%")
    else some (fmt2 num ++ "%")

end EDE

/-! ## `data_extraction.py` — `_normalize_financial_value` -/

namespace DE

/-- The multiplier chain of `_normalize_financial_value`: word substring or
single-letter `endswith` on the lower-cased value. -/
def multOfValue (low : List Char) : ℕ :=
  if subL "billion".data low || low.getLast? = some 'b' then 1000000000
  else if subL "million".data low || low.getLast? = some 'm' then 1000000
  else if subL "thousand".data low || low.getLast? = some 'k' then 1000
  else 1

/-- The size-based output formatting of `_normalize_financial_value`
(no trillion tier). -/
def formatFinancial (x : DecNum) : String :=
  if DecNum.ble (DecNum.ofNat 1000000000) x.absD then "$" ++ fmt2 (x.divPow10 9) ++ "B"
  else if DecNum.ble (DecNum.ofNat 1000000) x.absD then "$" ++ fmt2 (x.divPow10 6) ++ "M"
  else if DecNum.ble (DecNum.ofNat 1000) x.absD then "$" ++ fmt2 (x.divPow10 3) ++ "K"
  else "$" ++ fmtComma0 x

/-- `value.replace(",", "").strip()` (this variant keeps `$`). -/
def cleanedValue (value : String) : List Char :=
  pyStrip (value.data.filter (fun c => c ≠ ','))

/-- The negative-value detection of `_normalize_financial_value`
(no trailing-parenthesis case in this variant). -/
def isNegative (v : List Char) : Bool :=
  v.head? = some '-' || v.head? = some '('

/-- `data_extraction._normalize_financial_value`. -/
def normalize_financial_value (value : String) : Option String :=
  let v1 := cleanedValue value
  let neg := isNegative v1
  let v2 := if neg then stripNegative v1 else v1
  let m := multOfValue (v2.map asciiLower)
  match findNumDots v2 with
  | none => none
  | some tok =>
    if tok = ['.'] then none
    else
      match pyFloatOfToken tok with
      | none => none
      | some q =>
        let x1 := if neg then (q.mulNat m).neg else q.mulNat m
        let x2 := if m = 1 && DecNum.blt (DecNum.ofNat 100000) x1 then x1.mulNat 1000 else x1
        some (formatFinancial x2)

end DE

/-! ## `enhanced_data_extraction.py` — confidence scorer -/

namespace EDE

/-- The candidate record of `enhanced_data_extraction.ExtractedData`. -/
structure ExtractedData where
  field_name : String
  value : String
  confidence : DecNum
  source_document : String
  context : String
  extraction_method : String
  deriving DecidableEq, Repr

/-- The slots of the `company_context` dict that
`_calculate_enhanced_confidence` reads (`none` models an absent key). -/
structure CompanyContext where
  company_name : Option String
  stock_symbol : Option String
  document_name : Option String
  deriving DecidableEq, Repr

/-- Python truthiness of an optional string. -/
def truthy : Option String → Bool
  | some s => !s.isEmpty
  | none => false

/-- The `field_confidence_map.get(field_type, 0.8)` lookup. -/
def fieldBaseConfidence (ft : String) : DecNum :=
  if ft = "company_name" then ⟨9, 1⟩
  else if ft = "stock_symbol" then ⟨95, 2⟩
  else if ft = "revenue" then ⟨85, 2⟩
  else if ft = "net_income" then ⟨85, 2⟩
  else if ft = "fiscal_year" then ⟨8, 1⟩
  else if ft = "company_address" then ⟨7, 1⟩
  else if ft = "industry" then ⟨75, 2⟩
  else if ft = "primary_business" then ⟨75, 2⟩
  else if ft = "geographic_markets" then ⟨7, 1⟩
  else if ft = "key_products" then ⟨7, 1⟩
  else ⟨8, 1⟩

/-- The financial-context indicator scan of the scorer. -/
def finContextIndicator (ctx : String) : Bool :=
  containsS (lowerS ctx) "consolidated" || containsS (lowerS ctx) "financial" ||
    containsS (lowerS ctx) "statements" || containsS (lowerS ctx) "income" ||
    containsS (lowerS ctx) "balance sheet"

/-- Python `if cond: confidence += bonus` as an expression. -/
def addIf (b : Bool) (x bonus : DecNum) : DecNum := if b then x.add bonus else x

/-- `TargetedPatternMatcher._calculate_enhanced_confidence`.  The unused
`pattern` argument of the source is kept (`pat`); the unused `re.Match`
argument is dropped. -/
def calculate_enhanced_confidence (field_type pat context : String) (pattern_idx : ℕ)
    (cc : CompanyContext) : DecNum :=
  let c0 := fieldBaseConfidence field_type
  let c1 :=
    if pattern_idx = 0 then c0.add ⟨1, 1⟩
    else if pattern_idx = 1 then c0.add ⟨5, 2⟩
    else c0
  let c2 := addIf
    (!context.isEmpty &&
      (field_type = "revenue" || field_type = "net_income" || field_type = "total_assets") &&
      finContextIndicator context) c1 ⟨5, 2⟩
  let dn := cc.document_name.getD ""
  let docRelevant :=
    truthy cc.document_name && (field_type = "company_name" || field_type = "stock_symbol")
  let c3 := addIf
    (docRelevant && truthy cc.company_name && containsS dn (lowerS (cc.company_name.getD "")))
    c2 ⟨5, 2⟩
  let c4 := addIf
    (docRelevant && truthy cc.stock_symbol && containsS dn (lowerS (cc.stock_symbol.getD "")))
    c3 ⟨5, 2⟩
  DecNum.minD c4 ⟨1, 0⟩

/-! ## `enhanced_data_extraction.py` — `EnhancedConsolidationEngine` -/

/-- The financial-amount fields of `_enhanced_resolve_conflicts`. -/
def finAmountFields : List String :=
  ["revenue", "net_income", "total_assets", "total_liabilities", "market_cap"]

/-- The percentage fields of `_enhanced_resolve_conflicts`. -/
def pctFields : List String := ["net_margin", "operating_margin", "gross_margin"]

/-- `any(suffix in item.value for suffix in ['B', 'M', 'K'])`. -/
def hasMagnitudeSuffix (v : String) : Bool :=
  containsS v "B" || containsS v "M" || containsS v "K"

/-- The disqualifying-phrase test of the address branch. -/
def addressBad (v : String) : Bool :=
  containsS (lowerS v) "pursuant" || containsS (lowerS v) "section" ||
    containsS (lowerS v) "countries outside"

/-- Order used by `items.sort(key=lambda x: x.confidence, reverse=True)`:
`a` may come before `b` when its confidence is at least `b`'s.  Sorting
with a stable sort under this relation reproduces Python's stable
descending sort. -/
def confGE (a b : ExtractedData) : Prop :=
  DecNum.ble b.confidence a.confidence = true

instance : DecidableRel confGE := fun a b => by
  unfold confGE
  infer_instance

/-- Python's stable descending sort by confidence. -/
def sortByConfDesc (l : List ExtractedData) : List ExtractedData :=
  List.insertionSort confGE l

/-- `EnhancedConsolidationEngine._enhanced_resolve_conflicts`, applied to
the already-sorted candidate list of one field. -/
def resolveConflicts (field_name : String) (items : List ExtractedData) : String :=
  match items with
  | [] => ""
  | top :: rest =>
    let all := top :: rest
    match (if field_name = "fiscal_year" then
        (all.filter (fun i => containsS i.value "202")).head? else none) with
    | some i => i.value
    | none =>
      match (if field_name ∈ finAmountFields then
          (all.filter (fun i => hasMagnitudeSuffix i.value)).head? else none) with
      | some i => i.value
      | none =>
        match (if field_name ∈ pctFields then
            (all.filter (fun i => containsS i.value "%")).head? else none) with
        | some i => i.value
        | none =>
          match (if field_name = "company_address" then
              (all.filter (fun i => containsS i.value "," && !addressBad i.value)).head?
            else none) with
          | some i => i.value
          | none => top.value

/-- First-occurrence deduplication of the grouping keys (a Python dict
keeps keys in insertion order). -/
def dedupFirstAux : List String → List String → List String
  | [], _ => []
  | k :: rest, seen =>
    if k ∈ seen then dedupFirstAux rest seen else k :: dedupFirstAux rest (k :: seen)

/-- `EnhancedConsolidationEngine.consolidate_extracted_data`: group by
field name (insertion order), sort each group by confidence descending
(stably), resolve, and collect into the consolidated map. -/
def consolidate_extracted_data (l : List ExtractedData) : List (String × String) :=
  (dedupFirstAux (l.map (fun x => x.field_name)) []).map
    (fun f =>
      (f, resolveConflicts f (sortByConfDesc (l.filter (fun x => x.field_name = f)))))

end EDE

/-! ## `data_extraction.py` — `FinancialDataExtractor.extract_data` -/

namespace DE

/-- The candidate record of `data_extraction.ExtractedData`. -/
structure ExtractedData where
  field_name : String
  value : String
  confidence : DecNum
  source_document : String
  context : String
  deriving DecidableEq, Repr

/-- The entity-classification flags computed at the top of `extract_data`. -/
structure EntityFlags where
  bluebird : Bool
  doubleverify : Bool
  apple : Bool
  microsoft : Bool
  amazon : Bool
  deriving DecidableEq, Repr

/-- The `is_bluebird` / `is_doubleverify` / ... flag computation. -/
def entityFlags (text document_name : String) : EntityFlags where
  bluebird := containsS (lowerS document_name) "bluebird" ||
    containsS (lowerS document_name) "blbd" || containsS (lowerS text) "blue bird"
  doubleverify := containsS (lowerS document_name) "doubleverify" ||
    containsS (lowerS document_name) "dv" || containsS text "DoubleVerify"
  apple := containsS (lowerS document_name) "apple" ||
    containsS (lowerS document_name) "aapl" || containsS text "Apple Inc"
  microsoft := containsS (lowerS document_name) "microsoft" ||
    containsS (lowerS document_name) "msft" || containsS text "Microsoft Corporation"
  amazon := containsS (lowerS document_name) "amazon" ||
    containsS (lowerS document_name) "amzn" || containsS text "Amazon.com"

/-- The keys of `FinancialDataExtractor.financial_patterns`. -/
def financialFieldNames : List String :=
  ["revenue", "net_income", "total_assets", "total_liabilities", "shareholders_equity",
   "operating_cash_flow", "eps", "pe_ratio", "market_cap", "employees", "gross_margin",
   "operating_margin", "net_margin", "current_ratio", "debt_to_equity", "roe",
   "book_value_per_share"]

/-- The fields routed through `_normalize_financial_value`. -/
def normalizedFinancialFields : List String :=
  ["revenue", "net_income", "operating_cash_flow", "total_assets", "total_liabilities",
   "shareholders_equity", "market_cap"]

/-- One regex match harvested by a pattern scan: the field whose pattern
fired, the captured group 1, and the surrounding text window the source
stores as context.  The regex engine itself is abstracted: theorems
quantify over the list of matches it produced. -/
structure RegexMatch where
  field : String
  group1 : String
  window : String
  deriving DecidableEq, Repr

/-- The body of the financial-pattern loop of `extract_data` for one match. -/
def processFinancialMatch (document_name : String) (m : RegexMatch) : Option ExtractedData :=
  let raw := pyStripS m.group1
  if raw.isEmpty || raw.length < 2 || raw = "." || raw = "," || raw = "-" then none
  else if m.field ∈ normalizedFinancialFields then
    match normalize_financial_value raw with
    | some v => some ⟨m.field, v, ⟨9, 1⟩, document_name, m.window⟩
    | none => none
  else some ⟨m.field, raw, ⟨9, 1⟩, document_name, m.window⟩

/-- `re.sub(r'^(The\s+|A\s+)', '', v, flags=re.IGNORECASE)`. -/
def stripLeadingArticle (cs : List Char) : List Char :=
  let low := cs.map asciiLower
  let theMatch := startsWithL ['t', 'h', 'e'] low && (((cs.drop 3).head?.map pySpace).getD false)
  let aMatch := (low.head? = some 'a') && (((cs.drop 1).head?.map pySpace).getD false)
  if theMatch then (cs.drop 3).dropWhile pySpace
  else if aMatch then (cs.drop 1).dropWhile pySpace
  else cs

theorem dropWhile_length_le {α : Type} (p : α → Bool) :
    ∀ l : List α, (l.dropWhile p).length ≤ l.length := by
  intro l
  induction l with
  | nil => simp [List.dropWhile]
  | cons c rest ih =>
    rw [List.dropWhile]
    cases p c with
    | true => exact Nat.le_succ_of_le ih
    | false => exact Nat.le_refl _

/-- `re.sub(r'\s+', ' ', v)`. -/
def collapseWs : List Char → List Char
  | [] => []
  | c :: rest =>
    if pySpace c then ' ' :: collapseWs (rest.dropWhile pySpace)
    else c :: collapseWs rest
  termination_by l => l.length
  decreasing_by
  all_goals simp only [List.length_cons]
  all_goals first
    | exact Nat.lt_succ_of_le (dropWhile_length_le _ _)
    | exact Nat.lt_succ_self _

/-- Does the string contain four consecutive digits (`re.search(r'\d{4}')`)? -/
def starts4Digits : List Char → Bool
  | a :: b :: c :: d :: _ => a.isDigit && b.isDigit && c.isDigit && d.isDigit
  | _ => false

def hasRun4Digits : List Char → Bool
  | [] => false
  | c :: t => starts4Digits (c :: t) || hasRun4Digits t

/-- Python `str.split()` (split on whitespace runs, drop empties). -/
def pySplitAux : List Char → List Char → List (List Char)
  | [], acc => if acc.isEmpty then [] else [acc.reverse]
  | c :: rest, acc =>
    if pySpace c then
      if acc.isEmpty then pySplitAux rest [] else acc.reverse :: pySplitAux rest []
    else pySplitAux rest (c :: acc)

def pySplit (l : List Char) : List (List Char) := pySplitAux l []

/-- The company-name branch of the company-pattern loop (length and
fragment checks, article stripping, entity corroboration filters). -/
def cleanCompanyName (fl : EntityFlags) (raw : String) : Option String :=
  if raw.length < 5 || countChar ' ' raw.data > 10 then none
  else
    let r := pyStripS ⟨stripLeadingArticle raw.data⟩
    if fl.bluebird && !containsS (lowerS r) "blue bird" then none
    else if fl.doubleverify && !containsS (lowerS r) "doubleverify" then none
    else if fl.apple && !containsS (lowerS r) "apple" then none
    else if fl.microsoft && !containsS (lowerS r) "microsoft" then none
    else if fl.amazon && !containsS (lowerS r) "amazon" then none
    else some r

/-- The stock-symbol branch: shape check then entity corroboration. -/
def cleanStockSymbolDE (fl : EntityFlags) (raw : String) : Option String :=
  let r := upperS raw
  if !(2 ≤ r.length && r.length ≤ 5 && r.data.all isAZ) then none
  else if fl.bluebird && r ≠ "BLBD" then none
  else if fl.doubleverify && r ≠ "DV" then none
  else if fl.apple && r ≠ "AAPL" then none
  else if fl.microsoft && r ≠ "MSFT" then none
  else if fl.amazon && r ≠ "AMZN" then none
  else some r

/-- The company-address branch. -/
def cleanAddressDE (raw : String) : Option String :=
  let r := pyStripS ⟨collapseWs raw.data⟩
  if countChar ',' r.data > 3 then none else some r

/-- Is the character in the regex class `[\w\s]` (word or whitespace)? -/
def isWordOrSpace (c : Char) : Bool :=
  c.isAlphanum || c = '_' || pySpace c

def industryBadFrags : List String :=
  ["accelerated filer", "emerging growth company", "rule 405", "securities act",
   "exchange act"]

def industryStatementFrags : List String :=
  ["consolidated", "thousands", "amortization", "goodwill", "intangible assets"]

def industryLegalFrags : List String :=
  ["participant", "agreement", "restrictive covenant", "financial condition",
   "results of operations"]

def jargonWords : List (List Char) :=
  ["business".data, "operations".data, "financial".data, "condition".data,
   "results".data, "company".data, "subsidiaries".data]

def industryGoodWords : List String :=
  ["platform", "software", "technology", "digital", "advertising", "measurement",
   "analytics", "designer", "manufacturer"]

def primaryBusinessGoodWords : List String :=
  ["platform", "software", "technology", "digital", "advertising", "measurement",
   "analytics", "designer", "manufacturer", "providing", "operates as"]

/-- The industry / primary-business branch. -/
def cleanBusinessDE (info raw : String) : Option String :=
  let low := lowerS raw
  if raw.length < 10 || (raw.data.filter isWordOrSpace).length < 5 then none
  else if industryBadFrags.any (fun f => containsS low f) then none
  else if containsS low "defined in" || containsS low "section" then none
  else if industryStatementFrags.any (fun f => containsS low f) then none
  else if industryLegalFrags.any (fun f => containsS low f) then none
  else if 0 < countChar '•' raw.data || 0 < countChar '●' raw.data then none
  else if 3 < ((pySplit low.data).filter (fun w => w ∈ jargonWords)).length then none
  else if info = "industry" then
    if industryGoodWords.any (fun g => containsS low g) then some raw else none
  else
    if primaryBusinessGoodWords.any (fun g => containsS low g) then some raw else none

/-- The per-info-type cleaning and validation chain of the company loop. -/
def cleanValidateDE (fl : EntityFlags) (info raw : String) : Option String :=
  if info = "company_name" then cleanCompanyName fl raw
  else if info = "stock_symbol" then cleanStockSymbolDE fl raw
  else if info = "company_address" then cleanAddressDE raw
  else if info = "fiscal_year" then
    if hasRun4Digits raw.data then some raw else none
  else if info = "industry" || info = "primary_business" then cleanBusinessDE info raw
  else if info = "geographic_markets" then
    if countChar ',' raw.data > 5 then none else some raw
  else if info = "key_products" then
    if raw.length < 15 then none else some raw
  else some raw

/-- The body of the company-pattern loop of `extract_data` for one match. -/
def processCompanyMatch (fl : EntityFlags) (document_name : String) (m : RegexMatch) :
    Option ExtractedData :=
  let raw0 := pyStripS m.group1
  if raw0.length < 3 then none
  else
    match cleanValidateDE fl m.field raw0 with
    | none => none
    | some r =>
      if 3 ≤ r.length then some ⟨m.field, r, ⟨8, 1⟩, document_name, m.window⟩ else none

/-- `FinancialDataExtractor.extract_data`, with the two regex scans
abstracted into the match lists they produced. -/
def extract_data (text document_name : String)
    (finMatches companyMatches : List RegexMatch) : List ExtractedData :=
  let fl := entityFlags text document_name
  finMatches.filterMap (processFinancialMatch document_name) ++
    companyMatches.filterMap (processCompanyMatch fl document_name)

end DE

/-! ## `automation_engine.py` — ticker derivation and yfinance merge -/

namespace AE

/-- A Python dict value: a string or some non-string object. -/
inductive PyVal where
  | str (s : String)
  | other
  deriving DecidableEq, Repr

/-- Dict lookup on an ordered association list. -/
def lookupVal (m : List (String × PyVal)) (k : String) : Option PyVal :=
  (m.find? (fun p => p.1 == k)).map (fun p => p.2)

/-- The regex class `[:.\s\-]` of the exchange-prefix patterns. -/
def sepChar (c : Char) : Bool := c = ':' || c = '.' || pySpace c || c = '-'

/-- `re.sub(r'^(NASDAQ|NYSE)[:.\s\-]*', '', s)` on an upper-cased string. -/
def stripExchangePrefixU (cs : List Char) : List Char :=
  if startsWithL "NASDAQ".data cs then (cs.drop 6).dropWhile sepChar
  else if startsWithL "NYSE".data cs then (cs.drop 4).dropWhile sepChar
  else cs

/-- The cleanup applied to a direct `stock_symbol` value:
strip, upper-case, drop an exchange prefix, keep capital letters. -/
def cleanSymbol (raw : String) : String :=
  ⟨(stripExchangePrefixU ((pyStrip raw.data).map asciiUpper)).filter isAZ⟩

/-- One attempt of `re.search(r'(?:NASDAQ|NYSE)[:.\s\-]*([A-Z]{2,5})', s)`
at the current position. -/
def tryExchangeAt (cs : List Char) : Option (List Char) :=
  match
    (if startsWithL "NASDAQ".data cs then some (cs.drop 6)
     else if startsWithL "NYSE".data cs then some (cs.drop 4)
     else none) with
  | none => none
  | some rest =>
    let letters := (rest.dropWhile sepChar).takeWhile isAZ
    if 2 ≤ letters.length then some (letters.take 5) else none

/-- Leftmost search for the exchange-qualified ticker pattern. -/
def searchExchange : List Char → Option (List Char)
  | [] => none
  | c :: rest =>
    match tryExchangeAt (c :: rest) with
    | some t => some t
    | none => searchExchange rest

/-- The scan over all consolidated values of `extract_possible_ticker`. -/
def scanValues : List (String × PyVal) → Option String
  | [] => none
  | (k, v) :: rest =>
    match v with
    | .str s =>
      match searchExchange (s.data.map asciiUpper) with
      | some t => some ⟨t⟩
      | none =>
        if containsS (lowerS k) "ticker" || containsS (lowerS k) "symbol" then
          let sym := (s.data.map asciiUpper).filter isAZ
          if 1 ≤ sym.length && sym.length ≤ 5 then some ⟨sym⟩ else scanValues rest
        else scanValues rest
    | .other => scanValues rest

/-- `EnhancedAutomationEngine.extract_possible_ticker`.  The error case
models the `AttributeError` raised when `company_name` holds a non-string
(the source calls `.lower()` on it unguarded). -/
def extract_possible_ticker (m : List (String × PyVal)) : Except Unit String :=
  let fromSymbol : Option String :=
    match lookupVal m "stock_symbol" with
    | some (.str raw) =>
      let s := cleanSymbol raw
      if 1 ≤ s.length && s.length ≤ 5 then some s else none
    | _ => none
  match fromSymbol with
  | some s => .ok s
  | none =>
    match scanValues m with
    | some s => .ok s
    | none =>
      match lookupVal m "company_name" with
      | some .other => .error ()
      | cnOpt =>
        let cn := match cnOpt with
          | some (.str s) => lowerS s
          | _ => ""
        if containsS cn "doubleverify" then .ok "DV"
        else if containsS cn "blue bird" then .ok "BLBD"
        else if containsS cn "apple" then .ok "AAPL"
        else if containsS cn "microsoft" then .ok "MSFT"
        else if containsS cn "amazon" then .ok "AMZN"
        else .ok "UNKNOWN"

/-- Dict lookup on a string-valued association list. -/
def lookupStr (m : List (String × String)) (k : String) : Option String :=
  (m.find? (fun p => p.1 == k)).map (fun p => p.2)

/-- Python dict assignment: update an existing key in place, else append. -/
def setKV (m : List (String × String)) (k v : String) : List (String × String) :=
  match m with
  | [] => [(k, v)]
  | (k', v') :: rest => if k' = k then (k', v) :: rest else (k', v') :: setKV rest k v

/-- Python `a or b` for an optional string argument against a default. -/
def pyOr (arg : Option String) (d : String) : String :=
  match arg with
  | some s => if s.isEmpty then d else s
  | none => d

/-- Lines 148–149 of `automation_engine.py`: the symbol used for the
yfinance lookup.  `extracted.get('stock_symbol', 'BLBD')` falls back to
`"BLBD"` only when the key is absent. -/
def computeLookupSymbol (stock_symbol : Option String)
    (extracted : List (String × String)) : String :=
  let base := pyOr stock_symbol ((lookupStr extracted "stock_symbol").getD "BLBD")
  ⟨((pyStrip base.data).map asciiUpper).filter isAZ⟩

/-- The fill loop of `enhance_with_yfinance_data`: a yfinance value is
taken only for keys that are absent or empty. -/
def fillMissing (m yf : List (String × String)) : List (String × String) :=
  yf.foldl
    (fun acc kv => if (lookupStr acc kv.1).getD "" = "" then setKV acc kv.1 kv.2 else acc) m

/-- `EnhancedAutomationEngine.enhance_with_yfinance_data`.  The external
`ComprehensiveFinancialAnalyzer(...).extract_all_data()` call is modelled
by its outcome: either the data map it returned or the exception it
raised (caught by the source, which then returns the copy unchanged). -/
def enhance_with_yfinance_data (extracted : List (String × String))
    (stock_symbol : Option String)
    (lookupResult : Except String (List (String × String))) : List (String × String) :=
  let symbol := computeLookupSymbol stock_symbol extracted
  if 1 ≤ symbol.length && symbol.length ≤ 5 then
    match lookupResult with
    | .error _ => extracted
    | .ok yf => fillMissing extracted yf
  else extracted

end AE

/-! ## `enhanced_automation_engine.py` — `_enhanced_yfinance_integration` -/

namespace EAE

/-- `re.match(r'^[A-Z]{1,5}$', s)`. -/
def isTickerShape (s : String) : Bool :=
  1 ≤ s.length && s.length ≤ 5 && s.data.all isAZ

def yfinanceFields : List String :=
  ["market_cap", "employees", "operating_cash_flow", "shareholders_equity", "roe",
   "gross_margin", "operating_margin", "net_margin", "current_ratio", "debt_to_equity",
   "eps", "pe_ratio", "book_value_per_share", "competitors", "acquisitions",
   "product_launches", "strategic_initiatives", "regulatory_changes",
   "market_developments", "overall_rating", "price_target", "investment_horizon",
   "risk_assessment", "strengths_analysis", "weaknesses_analysis",
   "opportunities_analysis", "threats_analysis"]

def financialMetrics : List String :=
  ["operating_cash_flow", "shareholders_equity", "roe", "gross_margin",
   "operating_margin", "net_margin", "current_ratio", "debt_to_equity", "eps",
   "pe_ratio", "book_value_per_share"]

def analysisSections : List String :=
  ["competitors", "acquisitions", "product_launches", "strategic_initiatives",
   "regulatory_changes", "market_developments", "overall_rating", "price_target",
   "investment_horizon", "risk_assessment", "strengths_analysis",
   "weaknesses_analysis", "opportunities_analysis", "threats_analysis"]

/-- `d.get(k)` coerced through truthiness: the empty string doubles as the
absent value. -/
def getS (m : List (String × String)) (k : String) : String :=
  (AE.lookupStr m k).getD ""

/-- The three integration loops of `_enhanced_yfinance_integration` on a
successful, non-empty lookup.  (The trailing revenue-consistency check of
the source only logs: both parsed revenues are truthiness-guarded before
the division, so it can neither raise nor modify the data.) -/
def buildEnhanced (consolidated yf : List (String × String)) : List (String × String) :=
  let e1 := yfinanceFields.foldl
    (fun acc f => if getS acc f = "" && getS yf f ≠ "" then AE.setKV acc f (getS yf f) else acc)
    consolidated
  let e2 := financialMetrics.foldl
    (fun acc f => if getS yf f ≠ "" && getS yf f ≠ "N/A" then AE.setKV acc f (getS yf f) else acc)
    e1
  analysisSections.foldl
    (fun acc f => if getS yf f ≠ "" then AE.setKV acc f (getS yf f) else acc) e2

/-- `EnhancedAutomationEngine._enhanced_yfinance_integration`, the external
analyzer modelled by its outcome. -/
def enhanced_yfinance_integration (consolidated : List (String × String))
    (lookupResult : Except String (List (String × String))) : List (String × String) :=
  let sym := upperS (getS consolidated "stock_symbol")
  if sym.isEmpty then consolidated
  else if !(isTickerShape sym) then consolidated
  else
    match lookupResult with
    | .error _ => consolidated
    | .ok yf => if yf.isEmpty then consolidated else buildEnhanced consolidated yf

end EAE

/-! ## Semantics of exact decimals -/

theorem DecNum.toRat_add (a b : DecNum) : (a.add b).toRat = a.toRat + b.toRat := by
  unfold DecNum.add DecNum.toRat
  push_cast
  rw [pow_add]
  field_simp

theorem DecNum.toRat_mulNat (a : DecNum) (k : ℕ) : (a.mulNat k).toRat = a.toRat * k := by
  unfold DecNum.mulNat DecNum.toRat
  push_cast
  ring

theorem DecNum.toRat_ofNat (n : ℕ) : (DecNum.ofNat n).toRat = n := by
  unfold DecNum.ofNat DecNum.toRat
  simp

theorem DecNum.mulNat_one (a : DecNum) : a.mulNat 1 = a := by
  cases a
  unfold DecNum.mulNat
  simp

theorem DecNum.ble_iff (a b : DecNum) : a.ble b = true ↔ a.toRat ≤ b.toRat := by
  unfold DecNum.ble DecNum.toRat
  rw [decide_eq_true_eq, div_le_div_iff (by positivity) (by positivity)]
  constructor <;> intro h <;> exact_mod_cast h

theorem DecNum.blt_iff (a b : DecNum) : a.blt b = true ↔ a.toRat < b.toRat := by
  unfold DecNum.blt DecNum.toRat
  rw [decide_eq_true_eq, div_lt_div_iff (by positivity) (by positivity)]
  constructor <;> intro h <;> exact_mod_cast h

theorem DecNum.toRat_minD (a b : DecNum) : (DecNum.minD a b).toRat = min a.toRat b.toRat := by
  by_cases h : DecNum.ble a b = true
  · rw [DecNum.minD, if_pos h, min_eq_left ((DecNum.ble_iff a b).mp h)]
  · have hab : ¬a.toRat ≤ b.toRat := fun hc => h ((DecNum.ble_iff a b).mpr hc)
    rw [DecNum.minD, if_neg h, min_eq_right (le_of_not_le hab)]

/-! ## C1 — range of the enhanced confidence score -/

set_option maxHeartbeats 4000000 in
/-- C1 (counterexample): the confidence score is not clamped to
`[0.2, 0.98]` — a rank-0 `stock_symbol` match whose company name and
symbol both occur in the document name scores exactly 1. -/
theorem C1_counterexample :
    (EDE.calculate_enhanced_confidence "stock_symbol" "p" "c" 0
      ⟨some "Apple", some "AAPL", some "apple aapl"⟩).toRat = 1 := by
  have h : EDE.calculate_enhanced_confidence "stock_symbol" "p" "c" 0
      ⟨some "Apple", some "AAPL", some "apple aapl"⟩ = ⟨1, 0⟩ := by decide
  rw [h]
  unfold DecNum.toRat
  norm_num

set_option maxHeartbeats 1600000 in
/-- C1 (amended): for every field type, pattern, context, pattern index
and company context, `_calculate_enhanced_confidence` returns a score in
the closed interval `[0.7, 1]`; the upper clamp is `min(confidence, 1.0)`,
so the score can be exactly 1 (never above), and it is never below the
smallest base confidence 0.7. -/
theorem C1_amended (field_type pat context : String) (pattern_idx : ℕ)
    (cc : EDE.CompanyContext) :
    7 / 10 ≤ (EDE.calculate_enhanced_confidence field_type pat context pattern_idx cc).toRat ∧
    (EDE.calculate_enhanced_confidence field_type pat context pattern_idx cc).toRat ≤ 1 := by
  have eA : ((⟨1, 1⟩ : DecNum)).toRat = 1 / 10 := by unfold DecNum.toRat; norm_num
  have eB : ((⟨5, 2⟩ : DecNum)).toRat = 1 / 20 := by unfold DecNum.toRat; norm_num
  have eC : ((⟨1, 0⟩ : DecNum)).toRat = 1 := by unfold DecNum.toRat; norm_num
  have hbase : 7 / 10 ≤ (EDE.fieldBaseConfidence field_type).toRat ∧
      (EDE.fieldBaseConfidence field_type).toRat ≤ 95 / 100 := by
    unfold EDE.fieldBaseConfidence
    split_ifs <;> (unfold DecNum.toRat; norm_num)
  obtain ⟨hb1, hb2⟩ := hbase
  have hlow : ∀ (b : Bool) (x : DecNum), 7 / 10 ≤ x.toRat →
      7 / 10 ≤ (EDE.addIf b x ⟨5, 2⟩).toRat := by
    intro b x h1
    cases b
    · unfold EDE.addIf
      simpa using h1
    · unfold EDE.addIf
      simp only [if_true, DecNum.toRat_add, eB]
      linarith
  have hc1 : 7 / 10 ≤ (if pattern_idx = 0 then (EDE.fieldBaseConfidence field_type).add ⟨1, 1⟩
        else if pattern_idx = 1 then (EDE.fieldBaseConfidence field_type).add ⟨5, 2⟩
        else EDE.fieldBaseConfidence field_type).toRat := by
    split_ifs <;> (try simp only [DecNum.toRat_add, eA, eB]) <;> linarith
  simp only [EDE.calculate_enhanced_confidence]
  rw [DecNum.toRat_minD, eC]
  refine ⟨le_min ?_ (by norm_num), min_le_right _ _⟩
  apply hlow
  apply hlow
  apply hlow
  exact hc1

/-! ## C2 — the bare-number thousands-rescale heuristic -/

/-- C2 (counterexample): the claim fails on the enhanced normalizer for the
bare string `"2000000000"`: no magnitude indicator is present and the
parsed bare value exceeds 100,000, yet the value is NOT multiplied by
1,000 — the code keeps bare values at or above one billion as-is,
producing `"$2.00B"` where the claimed rescale would produce `"$2.00T"`. -/
theorem C2_counterexample :
    EDE.isNegative (EDE.cleanedValue "2000000000") = false ∧
    EDE.multiplier ((EDE.cleanedValue "2000000000").map asciiLower)
      ("".data.map asciiLower) = 1 ∧
    findNum (EDE.cleanedValue "2000000000") = some "2000000000".data ∧
    (100000 : ℚ) < (parseNumToken "2000000000".data).toRat ∧
    EDE.normalize_financial_value "2000000000" "" = some "$2.00B" ∧
    EDE.formatFinancial ((parseNumToken "2000000000".data).mulNat 1000) = "$2.00T" := by
  refine ⟨by decide, by decide, by decide, ?_, by decide, by decide⟩
  have h : parseNumToken "2000000000".data = ⟨2000000000, 0⟩ := by decide
  rw [h]
  unfold DecNum.toRat
  norm_num

/-- C2 (amended): with no explicit magnitude indicator and a non-negative
parse, the enhanced normalizer multiplies the bare value by 1,000 before
formatting only when it lies in `[100,000, 1e9)` (bare values at or above
one billion are treated as already in dollars), while the legacy
normalizer of `data_extraction.py` rescales every bare value exceeding
100,000; in particular both normalize `"1200000"` to `"$1.20B"`. -/
theorem C2_amended :
    (∀ value context : String,
      EDE.isNegative (EDE.cleanedValue value) = false →
      EDE.multiplier ((EDE.cleanedValue value).map asciiLower)
        (context.data.map asciiLower) = 1 →
      ∀ tok : List Char, findNum (EDE.cleanedValue value) = some tok →
      (100000 : ℚ) ≤ (parseNumToken tok).toRat →
      (parseNumToken tok).toRat < 1000000000 →
      EDE.normalize_financial_value value context =
        some (EDE.formatFinancial ((parseNumToken tok).mulNat 1000))) ∧
    (∀ value : String,
      DE.isNegative (DE.cleanedValue value) = false →
      DE.multOfValue ((DE.cleanedValue value).map asciiLower) = 1 →
      ∀ (tok : List Char) (q : DecNum), findNumDots (DE.cleanedValue value) = some tok →
      pyFloatOfToken tok = some q →
      (100000 : ℚ) < q.toRat →
      DE.normalize_financial_value value = some (DE.formatFinancial (q.mulNat 1000))) ∧
    EDE.normalize_financial_value "1200000" "" = some "$1.20B" ∧
    DE.normalize_financial_value "1200000" = some "$1.20B" := by
  refine ⟨?_, ?_, by decide, by decide⟩
  · intro value context hneg hm tok htok hlo hhi
    have htokne : ¬tok = ['.'] := by
      intro he
      subst he
      rw [show parseNumToken ['.'] = ⟨0, 0⟩ from by decide] at hlo
      unfold DecNum.toRat at hlo
      norm_num at hlo
    have hble9 : DecNum.ble (DecNum.ofNat 1000000000) (parseNumToken tok) = false := by
      rw [Bool.eq_false_iff]
      intro hc
      rw [DecNum.ble_iff, DecNum.toRat_ofNat] at hc
      push_cast at hc
      linarith
    have hble5 : DecNum.ble (DecNum.ofNat 100000) (parseNumToken tok) = true := by
      rw [DecNum.ble_iff, DecNum.toRat_ofNat]
      push_cast
      linarith
    simp only [EDE.normalize_financial_value, hneg, Bool.false_eq_true, if_false, hm, htok,
      if_neg htokne, DecNum.mulNat_one, EDE.smartScale, if_pos rfl, hble9, hble5, if_true]
  · intro value hneg hm tok q htok hq hlo
    have htokne : ¬tok = ['.'] := by
      intro he
      subst he
      rw [show pyFloatOfToken ['.'] = none from by decide] at hq
      cases hq
    have hblt : DecNum.blt (DecNum.ofNat 100000) q = true := by
      rw [DecNum.blt_iff, DecNum.toRat_ofNat]
      push_cast
      linarith
    simp only [DE.normalize_financial_value, hneg, Bool.false_eq_true, if_false, hm, htok,
      if_neg htokne, hq, DecNum.mulNat_one, hblt, Bool.and_true]
    norm_num

/-- C2 (witness): the amended theorem applied to the bare string
`"1200000"` on both normalizers. -/
theorem C2_witness :
    EDE.normalize_financial_value "1200000" "" =
      some (EDE.formatFinancial ((parseNumToken "1200000".data).mulNat 1000)) ∧
    DE.normalize_financial_value "1200000" =
      some (DE.formatFinancial ((parseNumToken "1200000".data).mulNat 1000)) := by
  have hp : parseNumToken "1200000".data = ⟨1200000, 0⟩ := by decide
  constructor
  · refine C2_amended.1 "1200000" "" (by decide) (by decide) "1200000".data (by decide) ?_ ?_
    all_goals (rw [hp]; unfold DecNum.toRat; norm_num)
  · refine C2_amended.2.1 "1200000" (by decide) (by decide) "1200000".data ⟨1200000, 0⟩
      (by decide) (by decide) ?_
    unfold DecNum.toRat
    norm_num

/-! ## C3 — percentage normalization -/

/-- C3: the percentage normalizer multiplies a parsed number below 1 by
100 and keeps a number at or above 1 unchanged, formatting either with
two decimals and a percent sign; in particular `"0.12"` yields
`"12.00%"` and `"12"` yields `"12.00%"`. -/
theorem C3_percentage :
    (∀ (value : String) (tok : List Char),
      findNum (EDE.cleanedPercent value) = some tok →
      ((parseNumToken tok).toRat < 1 →
        EDE.normalize_percentage value =
          some (fmt2 ((parseNumToken tok).mulNat 100) ++ "%")) ∧
      (1 ≤ (parseNumToken tok).toRat →
        EDE.normalize_percentage value = some (fmt2 (parseNumToken tok) ++ "%"))) ∧
    EDE.normalize_percentage "0.12" = some "12.00%" ∧
    EDE.normalize_percentage "12" = some "12.00%" := by
  refine ⟨?_, by decide, by decide⟩
  intro value tok htok
  constructor
  · intro hlt
    have hblt : DecNum.blt (parseNumToken tok) (DecNum.ofNat 1) = true := by
      rw [DecNum.blt_iff, DecNum.toRat_ofNat]
      push_cast
      linarith
    simp only [EDE.normalize_percentage, htok, hblt, if_true]
  · intro hge
    have hblt : DecNum.blt (parseNumToken tok) (DecNum.ofNat 1) = false := by
      rw [Bool.eq_false_iff]
      intro hc
      rw [DecNum.blt_iff, DecNum.toRat_ofNat] at hc
      push_cast at hc
      linarith
    simp only [EDE.normalize_percentage, htok, hblt, Bool.false_eq_true, if_false]

/-- C3 (witness): the general statement applied to `"0.12"` and `"12"`. -/
theorem C3_witness :
    EDE.normalize_percentage "0.12" =
      some (fmt2 ((parseNumToken "0.12".data).mulNat 100) ++ "%") ∧
    EDE.normalize_percentage "12" = some (fmt2 (parseNumToken "12".data) ++ "%") := by
  constructor
  · refine (C3_percentage.1 "0.12" "0.12".data (by decide)).1 ?_
    rw [show parseNumToken "0.12".data = ⟨12, 2⟩ from by decide]
    unfold DecNum.toRat
    norm_num
  · refine (C3_percentage.1 "12" "12".data (by decide)).2 ?_
    rw [show parseNumToken "12".data = ⟨12, 0⟩ from by decide]
    unfold DecNum.toRat
    norm_num


/-! ## C4 — ticker derivation -/

/-- C4: `extract_possible_ticker` is a function of the consolidated map;
a string `stock_symbol` entry is cleaned (exchange prefix and non-letters
stripped) and returned exactly when 1–5 letters remain; a map whose
symbol cleans to more than 5 letters such as `"TOOLONGTICKER"` falls
through, and with no usable symbol, exchange pattern or known company
name the sentinel `"UNKNOWN"` is returned. -/
theorem C4_ticker :
    (∀ (s : String) (rest : List (String × AE.PyVal)),
      1 ≤ (AE.cleanSymbol s).length → (AE.cleanSymbol s).length ≤ 5 →
      AE.extract_possible_ticker (("stock_symbol", AE.PyVal.str s) :: rest) =
        Except.ok (AE.cleanSymbol s)) ∧
    AE.extract_possible_ticker [("stock_symbol", AE.PyVal.str "NASDAQ:AAPL")] =
      Except.ok "AAPL" ∧
    AE.extract_possible_ticker [("stock_symbol", AE.PyVal.str "TOOLONGTICKER")] =
      Except.ok "UNKNOWN" ∧
    AE.extract_possible_ticker [] = Except.ok "UNKNOWN" := by
  refine ⟨?_, by decide, by decide, by decide⟩
  intro s rest h1 h5
  have hlook : AE.lookupVal (("stock_symbol", AE.PyVal.str s) :: rest) "stock_symbol" =
      some (AE.PyVal.str s) := by
    simp [AE.lookupVal, List.find?]
  simp only [AE.extract_possible_ticker, hlook, h1, h5, decide_eq_true_eq,
    Bool.and_self, if_true]

/-- C4 (witness): the general part applied to the singleton map holding
`"NASDAQ:AAPL"`. -/
theorem C4_witness :
    AE.extract_possible_ticker [("stock_symbol", AE.PyVal.str "NASDAQ:AAPL")] =
      Except.ok (AE.cleanSymbol "NASDAQ:AAPL") :=
  C4_ticker.1 "NASDAQ:AAPL" [] (by decide) (by decide)


/-! ## Consolidation infrastructure: order, sort and lookup lemmas -/

theorem EDE.confGE_iff (a b : EDE.ExtractedData) :
    EDE.confGE a b ↔ b.confidence.toRat ≤ a.confidence.toRat := by
  unfold EDE.confGE
  rw [DecNum.ble_iff]

instance : IsTotal EDE.ExtractedData EDE.confGE := by
  constructor
  intro a b
  rcases le_total b.confidence.toRat a.confidence.toRat with h | h
  · exact Or.inl ((EDE.confGE_iff a b).mpr h)
  · exact Or.inr ((EDE.confGE_iff b a).mpr h)

instance : IsTrans EDE.ExtractedData EDE.confGE := by
  constructor
  intro a b c hab hbc
  rw [EDE.confGE_iff] at hab hbc ⊢
  exact le_trans hbc hab

theorem sortByConfDesc_perm (l : List EDE.ExtractedData) :
    (EDE.sortByConfDesc l).Perm l :=
  List.perm_insertionSort _ l

theorem sortByConfDesc_sorted (l : List EDE.ExtractedData) :
    (EDE.sortByConfDesc l).Sorted EDE.confGE :=
  List.sorted_insertionSort _ l

theorem head?_mem {α : Type} {l : List α} {a : α} (h : l.head? = some a) : a ∈ l := by
  cases l with
  | nil => cases h
  | cons x xs =>
    simp only [List.head?_cons, Option.some.injEq] at h
    exact h ▸ List.mem_cons_self x xs

theorem if_head?_mem {c : Prop} [Decidable c] {p : EDE.ExtractedData → Bool}
    {l : List EDE.ExtractedData} {i : EDE.ExtractedData}
    (h : (if c then (l.filter p).head? else none) = some i) : i ∈ l ∧ p i = true := by
  split at h
  · exact List.mem_filter.mp (head?_mem h)
  · cases h

theorem lookup_map_keys (keys : List String) (g : String → String) (k : String) :
    List.lookup k (keys.map (fun f => (f, g f))) = if k ∈ keys then some (g k) else none := by
  induction keys with
  | nil => simp
  | cons f rest ih =>
    simp only [List.map_cons, List.lookup]
    by_cases h : k = f
    · subst h
      simp
    · have hbeq : (k == f) = false := beq_eq_false_iff_ne.mpr h
      simp [hbeq, ih, h]

theorem mem_dedupFirstAux (l : List String) (k : String) :
    ∀ seen : List String, k ∈ EDE.dedupFirstAux l seen ↔ k ∈ l ∧ k ∉ seen := by
  induction l with
  | nil => intro seen; simp [EDE.dedupFirstAux]
  | cons a rest ih =>
    intro seen
    simp only [EDE.dedupFirstAux]
    by_cases ha : a ∈ seen
    · rw [if_pos ha, ih]
      simp only [List.mem_cons]
      constructor
      · rintro ⟨h1, h2⟩
        exact ⟨Or.inr h1, h2⟩
      · rintro ⟨h1 | h1, h2⟩
        · exact absurd (h1 ▸ ha) h2
        · exact ⟨h1, h2⟩
    · rw [if_neg ha]
      simp only [List.mem_cons, ih, List.mem_cons]
      constructor
      · rintro (rfl | ⟨h1, h2⟩)
        · exact ⟨Or.inl rfl, ha⟩
        · exact ⟨Or.inr h1, fun hc => h2 (Or.inr hc)⟩
      · rintro ⟨rfl | h1, h2⟩
        · exact Or.inl rfl
        · by_cases hk : k = a
          · exact Or.inl hk
          · exact Or.inr ⟨h1, fun hc => h2 (by tauto)⟩

theorem lookup_consolidate (l : List EDE.ExtractedData) (k : String) :
    List.lookup k (EDE.consolidate_extracted_data l) =
      if k ∈ l.map (fun x => x.field_name) then
        some (EDE.resolveConflicts k
          (EDE.sortByConfDesc (l.filter (fun x => x.field_name = k))))
      else none := by
  unfold EDE.consolidate_extracted_data
  rw [lookup_map_keys]
  by_cases h : k ∈ l.map (fun x => x.field_name)
  · rw [if_pos ((mem_dedupFirstAux _ _ _).mpr ⟨h, by simp⟩), if_pos h]
  · rw [if_neg (fun hc => h ((mem_dedupFirstAux _ _ _).mp hc).1), if_neg h]

theorem resolve_mem (f : String) (items : List EDE.ExtractedData) (h : items ≠ []) :
    ∃ x ∈ items, EDE.resolveConflicts f items = x.value := by
  cases items with
  | nil => exact absurd rfl h
  | cons top rest =>
    simp only [EDE.resolveConflicts]
    split
    · next i heq => exact ⟨i, (if_head?_mem heq).1, rfl⟩
    · split
      · next i heq => exact ⟨i, (if_head?_mem heq).1, rfl⟩
      · split
        · next i heq => exact ⟨i, (if_head?_mem heq).1, rfl⟩
        · split
          · next i heq => exact ⟨i, (if_head?_mem heq).1, rfl⟩
          · exact ⟨top, List.mem_cons_self _ _, rfl⟩

theorem sorted_unique : ∀ {l₁ l₂ : List EDE.ExtractedData}, l₁.Perm l₂ →
    l₁.Sorted EDE.confGE → l₂.Sorted EDE.confGE →
    (∀ a ∈ l₁, ∀ b ∈ l₁, a.confidence.toRat = b.confidence.toRat → a = b) →
    l₁ = l₂ := by
  intro l₁
  induction l₁ with
  | nil =>
    intro l₂ hp _ _ _
    exact hp.nil_eq
  | cons x t₁ ih =>
    intro l₂ hp hs₁ hs₂ hu
    cases l₂ with
    | nil => exact absurd hp.symm.nil_eq (by simp)
    | cons y t₂ =>
      have hx2 : x ∈ y :: t₂ := hp.mem_iff.mp (List.mem_cons_self x t₁)
      have hy1 : y ∈ x :: t₁ := hp.mem_iff.mpr (List.mem_cons_self y t₂)
      have hxy : x = y := by
        rcases List.mem_cons.mp hx2 with h | hx2t
        · exact h
        · rcases List.mem_cons.mp hy1 with h | hy1t
          · exact h.symm
          · have h1 : y.confidence.toRat ≤ x.confidence.toRat :=
              (EDE.confGE_iff x y).mp ((List.pairwise_cons.mp hs₁).1 y hy1t)
            have h2 : x.confidence.toRat ≤ y.confidence.toRat :=
              (EDE.confGE_iff y x).mp ((List.pairwise_cons.mp hs₂).1 x hx2t)
            exact hu x (List.mem_cons_self _ _) y hy1 (le_antisymm h2 h1)
      subst hxy
      have heq := ih hp.cons_inv (List.pairwise_cons.mp hs₁).2 (List.pairwise_cons.mp hs₂).2
        (fun a ha b hb => hu a (List.mem_cons_of_mem _ ha) b (List.mem_cons_of_mem _ hb))
      rw [heq]


theorem resolve_finAmount (f : String) (hfy : ¬f = "fiscal_year")
    (hf : f ∈ EDE.finAmountFields) (items : List EDE.ExtractedData)
    (y : EDE.ExtractedData)
    (hy : (items.filter (fun i => EDE.hasMagnitudeSuffix i.value)).head? = some y) :
    EDE.resolveConflicts f items = y.value := by
  cases items with
  | nil => simp at hy
  | cons top rest =>
    simp only [EDE.resolveConflicts]
    rw [if_neg hfy, if_pos hf, hy]

/-! ## C5 — magnitude-suffix override in consolidation -/

/-- C5: for a financial-amount field, whenever some candidate value
carries a B/M/K suffix, consolidation returns a suffix-carrying
candidate's value, regardless of higher-confidence suffixless rivals; in
particular a 0.9-confidence `"1200000"` loses to a 0.6-confidence
`"$1.20B"` for `revenue`. -/
theorem C5_consolidation_suffix :
    (∀ (l : List EDE.ExtractedData) (f : String),
      f ∈ EDE.finAmountFields →
      (∃ x ∈ l, x.field_name = f ∧ EDE.hasMagnitudeSuffix x.value = true) →
      ∃ y ∈ l, y.field_name = f ∧ EDE.hasMagnitudeSuffix y.value = true ∧
        List.lookup f (EDE.consolidate_extracted_data l) = some y.value) ∧
    EDE.consolidate_extracted_data
      [⟨"revenue", "1200000", ⟨9, 1⟩, "doc", "", "enhanced_pattern_0"⟩,
       ⟨"revenue", "$1.20B", ⟨6, 1⟩, "doc", "", "enhanced_pattern_1"⟩] =
      [("revenue", "$1.20B")] := by
  refine ⟨?_, by decide⟩
  rintro l f hf ⟨x, hxl, hxf, hxs⟩
  have hfy : ¬f = "fiscal_year" := by
    intro he
    rw [he] at hf
    exact absurd hf (by decide)
  have hk : f ∈ l.map (fun x0 => x0.field_name) := List.mem_map.mpr ⟨x, hxl, hxf⟩
  rw [lookup_consolidate, if_pos hk]
  have hxfil : x ∈ l.filter (fun x0 => x0.field_name = f) :=
    List.mem_filter.mpr ⟨hxl, by simp [hxf]⟩
  have hxit : x ∈ EDE.sortByConfDesc (l.filter (fun x0 => x0.field_name = f)) :=
    ((sortByConfDesc_perm _).mem_iff).mpr hxfil
  have hxsuf : x ∈ (EDE.sortByConfDesc (l.filter (fun x0 => x0.field_name = f))).filter
      (fun i => EDE.hasMagnitudeSuffix i.value) :=
    List.mem_filter.mpr ⟨hxit, by simp [hxs]⟩
  obtain ⟨y, hy⟩ : ∃ y, ((EDE.sortByConfDesc (l.filter (fun x0 => x0.field_name = f))).filter
      (fun i => EDE.hasMagnitudeSuffix i.value)).head? = some y := by
    cases hc : ((EDE.sortByConfDesc (l.filter (fun x0 => x0.field_name = f))).filter
        (fun i => EDE.hasMagnitudeSuffix i.value)).head? with
    | none => exact absurd (List.head?_eq_none_iff.mp hc) (List.ne_nil_of_mem hxsuf)
    | some y => exact ⟨y, rfl⟩
  have hymem := List.mem_filter.mp (head?_mem hy)
  have hyfil : y ∈ l.filter (fun x0 => x0.field_name = f) :=
    ((sortByConfDesc_perm _).mem_iff).mp hymem.1
  obtain ⟨hyl, hyf⟩ := List.mem_filter.mp hyfil
  exact ⟨y, hyl, of_decide_eq_true hyf, hymem.2,
    by rw [resolve_finAmount f hfy hf _ y hy]⟩

/-- C5 (witness): the general statement applied to the two-candidate
`revenue` group of the claim. -/
theorem C5_witness :
    ∃ y ∈ [(⟨"revenue", "1200000", ⟨9, 1⟩, "doc", "", "enhanced_pattern_0"⟩ : EDE.ExtractedData),
           ⟨"revenue", "$1.20B", ⟨6, 1⟩, "doc", "", "enhanced_pattern_1"⟩],
      y.field_name = "revenue" ∧ EDE.hasMagnitudeSuffix y.value = true ∧
      List.lookup "revenue" (EDE.consolidate_extracted_data
        [⟨"revenue", "1200000", ⟨9, 1⟩, "doc", "", "enhanced_pattern_0"⟩,
         ⟨"revenue", "$1.20B", ⟨6, 1⟩, "doc", "", "enhanced_pattern_1"⟩]) = some y.value :=
  C5_consolidation_suffix.1 _ "revenue" (by decide)
    ⟨⟨"revenue", "$1.20B", ⟨6, 1⟩, "doc", "", "enhanced_pattern_1"⟩, by decide, by decide,
      by decide⟩

/-! ## C8 — commutativity of consolidation over candidate order -/

/-- C8 (counterexample): consolidation is NOT commutative over candidate
order — two `eps` candidates with equal confidence are tie-broken by
input order by Python's stable sort, so the two orders of the same
two-element multiset consolidate to different maps. -/
theorem C8_counterexample :
    ([(⟨"eps", "1.0", ⟨5, 1⟩, "d", "", "p0"⟩ : EDE.ExtractedData),
      ⟨"eps", "2.0", ⟨5, 1⟩, "d", "", "p1"⟩].Perm
     [(⟨"eps", "2.0", ⟨5, 1⟩, "d", "", "p1"⟩ : EDE.ExtractedData),
      ⟨"eps", "1.0", ⟨5, 1⟩, "d", "", "p0"⟩]) ∧
    EDE.consolidate_extracted_data
      [⟨"eps", "1.0", ⟨5, 1⟩, "d", "", "p0"⟩, ⟨"eps", "2.0", ⟨5, 1⟩, "d", "", "p1"⟩] =
      [("eps", "1.0")] ∧
    EDE.consolidate_extracted_data
      [⟨"eps", "2.0", ⟨5, 1⟩, "d", "", "p1"⟩, ⟨"eps", "1.0", ⟨5, 1⟩, "d", "", "p0"⟩] =
      [("eps", "2.0")] :=
  ⟨List.Perm.swap _ _ _, by decide, by decide⟩

/-- C8 (amended): consolidation is commutative over candidate order
provided no two distinct same-field candidates share a confidence score
(ties are broken by input order, so only tie-free inputs are
order-independent); the resulting maps agree on every key. -/
theorem C8_amended (l₁ l₂ : List EDE.ExtractedData) (hp : l₁.Perm l₂)
    (hdist : ∀ a ∈ l₁, ∀ b ∈ l₁, a.field_name = b.field_name →
      a.confidence.toRat = b.confidence.toRat → a = b) (k : String) :
    List.lookup k (EDE.consolidate_extracted_data l₁) =
      List.lookup k (EDE.consolidate_extracted_data l₂) := by
  rw [lookup_consolidate, lookup_consolidate]
  have hmem : (k ∈ l₁.map (fun x => x.field_name)) ↔
      (k ∈ l₂.map (fun x => x.field_name)) := (hp.map _).mem_iff
  by_cases h : k ∈ l₁.map (fun x => x.field_name)
  · rw [if_pos h, if_pos (hmem.mp h)]
    have hgp : (l₁.filter (fun x => x.field_name = k)).Perm
        (l₂.filter (fun x => x.field_name = k)) := hp.filter _
    have hsorteq : EDE.sortByConfDesc (l₁.filter (fun x => x.field_name = k)) =
        EDE.sortByConfDesc (l₂.filter (fun x => x.field_name = k)) := by
      apply sorted_unique
      · exact (sortByConfDesc_perm _).trans (hgp.trans (sortByConfDesc_perm _).symm)
      · exact sortByConfDesc_sorted _
      · exact sortByConfDesc_sorted _
      · intro a ha b hb hconf
        have ha2 := List.mem_filter.mp (((sortByConfDesc_perm _).mem_iff).mp ha)
        have hb2 := List.mem_filter.mp (((sortByConfDesc_perm _).mem_iff).mp hb)
        exact hdist a ha2.1 b hb2.1
          ((of_decide_eq_true ha2.2).trans (of_decide_eq_true hb2.2).symm) hconf
    rw [hsorteq]
  · rw [if_neg h, if_neg (fun hc => h (hmem.mpr hc))]

/-- C8 (witness): the amended statement applied to a two-candidate list
whose fields differ (so the tie-freedom hypothesis holds trivially). -/
theorem C8_witness :
    List.lookup "revenue" (EDE.consolidate_extracted_data
      [(⟨"revenue", "$1.20B", ⟨9, 1⟩, "d", "", "p0"⟩ : EDE.ExtractedData),
       ⟨"eps", "2.0", ⟨9, 1⟩, "d", "", "p1"⟩]) =
    List.lookup "revenue" (EDE.consolidate_extracted_data
      [(⟨"eps", "2.0", ⟨9, 1⟩, "d", "", "p1"⟩ : EDE.ExtractedData),
       ⟨"revenue", "$1.20B", ⟨9, 1⟩, "d", "", "p0"⟩]) := by
  refine C8_amended _ _ (List.Perm.swap _ _ _) ?_ "revenue"
  intro a ha b hb hfield hconf
  fin_cases ha <;> fin_cases hb <;> first
    | rfl
    | exact absurd hfield (by decide)

/-! ## C9 — consolidation never invents values -/

/-- C9: every key of the consolidated map is the field name of some input
candidate and its value is the value of some candidate of that field; a
field with no candidates is absent from the map. -/
theorem C9_no_invention :
    (∀ (l : List EDE.ExtractedData) (k v : String),
      List.lookup k (EDE.consolidate_extracted_data l) = some v →
      ∃ x ∈ l, x.field_name = k ∧ x.value = v) ∧
    (∀ (l : List EDE.ExtractedData) (k : String),
      (∀ x ∈ l, x.field_name ≠ k) →
      List.lookup k (EDE.consolidate_extracted_data l) = none) := by
  constructor
  · intro l k v h
    rw [lookup_consolidate] at h
    by_cases hk : k ∈ l.map (fun x => x.field_name)
    · rw [if_pos hk, Option.some.injEq] at h
      have hne : EDE.sortByConfDesc (l.filter (fun x => x.field_name = k)) ≠ [] := by
        obtain ⟨x, hxl, hxf⟩ := List.mem_map.mp hk
        have hxfil : x ∈ l.filter (fun x0 => x0.field_name = k) :=
          List.mem_filter.mpr ⟨hxl, by simp [hxf]⟩
        exact List.ne_nil_of_mem (((sortByConfDesc_perm _).mem_iff).mpr hxfil)
      obtain ⟨y, hy, hval⟩ := resolve_mem k _ hne
      have hyfil := List.mem_filter.mp (((sortByConfDesc_perm _).mem_iff).mp hy)
      exact ⟨y, hyfil.1, of_decide_eq_true hyfil.2, by rw [← h, hval]⟩
    · rw [if_neg hk] at h
      cases h
  · intro l k hnone
    rw [lookup_consolidate, if_neg]
    intro hc
    obtain ⟨x, hxl, hxf⟩ := List.mem_map.mp hc
    exact hnone x hxl hxf

/-- C9 (witness): both parts applied to a one-candidate list. -/
theorem C9_witness :
    (∃ x ∈ [(⟨"eps", "3.10", ⟨9, 1⟩, "d", "", "p0"⟩ : EDE.ExtractedData)],
      x.field_name = "eps" ∧ x.value = "3.10") ∧
    List.lookup "revenue" (EDE.consolidate_extracted_data
      [(⟨"eps", "3.10", ⟨9, 1⟩, "d", "", "p0"⟩ : EDE.ExtractedData)]) = none :=
  ⟨C9_no_invention.1 _ "eps" "3.10" (by decide),
   C9_no_invention.2 _ "revenue" (by decide)⟩


/-! ## Substring machinery for the entity filter -/

theorem startsWithL_true_iff {n h : List Char} :
    startsWithL n h = true ↔ ∃ t, h = n ++ t := by
  induction n generalizing h with
  | nil =>
    constructor
    · intro _
      exact ⟨h, rfl⟩
    · intro _
      rfl
  | cons a as ih =>
    cases h with
    | nil => simp [startsWithL]
    | cons b bs =>
      simp only [startsWithL, Bool.and_eq_true, decide_eq_true_eq, ih]
      constructor
      · rintro ⟨rfl, t, rfl⟩
        exact ⟨t, rfl⟩
      · rintro ⟨t, het⟩
        injection het with h1 h2
        exact ⟨h1.symm, t, h2⟩

theorem subL_true_iff {n h : List Char} :
    subL n h = true ↔ ∃ s t, h = s ++ n ++ t := by
  induction h with
  | nil =>
    rw [subL, List.isEmpty_iff]
    constructor
    · intro he
      exact ⟨[], [], by simp [he]⟩
    · rintro ⟨s, t, hst⟩
      rcases List.append_eq_nil.mp hst.symm with ⟨h1, h2⟩
      exact (List.append_eq_nil.mp h1).2
  | cons c hs ih =>
    rw [subL, Bool.or_eq_true, startsWithL_true_iff, ih]
    constructor
    · rintro (⟨t, ht⟩ | ⟨s, t, hst⟩)
      · exact ⟨[], t, by simp [ht]⟩
      · exact ⟨c :: s, t, by simp [hst]⟩
    · rintro ⟨s, t, hst⟩
      cases s with
      | nil => exact Or.inl ⟨t, by simpa using hst⟩
      | cons c0 s0 =>
        simp only [List.cons_append] at hst
        injection hst with h1 h2
        exact Or.inr ⟨s0, t, h2⟩

theorem subL_append_left {n mid : List Char} (x : List Char) (h : subL n mid = true) :
    subL n (x ++ mid) = true := by
  rw [subL_true_iff] at h ⊢
  obtain ⟨s, t, rfl⟩ := h
  exact ⟨x ++ s, t, by simp⟩

theorem subL_append_right {n mid : List Char} (x : List Char) (h : subL n mid = true) :
    subL n (mid ++ x) = true := by
  rw [subL_true_iff] at h ⊢
  obtain ⟨s, t, rfl⟩ := h
  exact ⟨s, t ++ x, by simp⟩

theorem dropWhile_decomp (p : Char → Bool) (l : List Char) : ∃ u, l = u ++ l.dropWhile p :=
  ⟨l.takeWhile p, (List.takeWhile_append_dropWhile p l).symm⟩

theorem dropTrailing_decomp (p : Char → Bool) (l : List Char) :
    ∃ v, l = dropTrailing p l ++ v := by
  obtain ⟨u, hu⟩ := dropWhile_decomp p l.reverse
  refine ⟨u.reverse, ?_⟩
  unfold dropTrailing
  calc l = l.reverse.reverse := (List.reverse_reverse l).symm
    _ = (u ++ l.reverse.dropWhile p).reverse := by rw [← hu]
    _ = (l.reverse.dropWhile p).reverse ++ u.reverse := by rw [List.reverse_append]

theorem pyStrip_decomp (l : List Char) : ∃ u v, l = u ++ pyStrip l ++ v := by
  obtain ⟨u, hu⟩ := dropWhile_decomp pySpace l
  obtain ⟨v, hv⟩ := dropTrailing_decomp pySpace (l.dropWhile pySpace)
  exact ⟨u, v, by rw [pyStrip, List.append_assoc, ← hv, ← hu]⟩

theorem stripLeadingArticle_decomp (l : List Char) :
    ∃ u, l = u ++ DE.stripLeadingArticle l := by
  simp only [DE.stripLeadingArticle]
  split_ifs
  · obtain ⟨u2, hu2⟩ := dropWhile_decomp pySpace (l.drop 3)
    exact ⟨l.take 3 ++ u2, by rw [List.append_assoc, ← hu2, List.take_append_drop]⟩
  · obtain ⟨u2, hu2⟩ := dropWhile_decomp pySpace (l.drop 1)
    exact ⟨l.take 1 ++ u2, by rw [List.append_assoc, ← hu2, List.take_append_drop]⟩
  · exact ⟨[], rfl⟩

/-- Non-containment survives the company-name cleaning chain: the cleaned
name is a contiguous piece of the raw match, so a fragment found in the
cleaned name was already present in the raw one. -/
theorem containsS_of_clean {needle raw : String}
    (h : containsS (lowerS (pyStripS ⟨DE.stripLeadingArticle (pyStripS raw).data⟩))
      needle = true) :
    containsS (lowerS raw) needle = true := by
  have h0 : subL needle.data
      ((pyStrip (DE.stripLeadingArticle (pyStrip raw.data))).map asciiLower) = true := h
  clear h
  show subL needle.data (raw.data.map asciiLower) = true
  obtain ⟨u1, v1, h1⟩ := pyStrip_decomp raw.data
  obtain ⟨u2, h2⟩ := stripLeadingArticle_decomp (pyStrip raw.data)
  obtain ⟨u3, v3, h3⟩ := pyStrip_decomp (DE.stripLeadingArticle (pyStrip raw.data))
  have a1 := subL_append_right (v3.map asciiLower) h0
  have a2 := subL_append_left (u3.map asciiLower) a1
  have a3 : subL needle.data ((DE.stripLeadingArticle (pyStrip raw.data)).map asciiLower)
      = true := by
    rw [h3]
    simpa [List.map_append, List.append_assoc] using a2
  have a4 := subL_append_left (u2.map asciiLower) a3
  have a5 : subL needle.data ((pyStrip raw.data).map asciiLower) = true := by
    rw [h2]
    simpa [List.map_append] using a4
  have a6 := subL_append_right (v1.map asciiLower) a5
  have a7 := subL_append_left (u1.map asciiLower) a6
  rw [h1]
  simpa [List.map_append, List.append_assoc] using a7

/-! ## C6 — entity-aware filtering of company names -/

/-- C6: in a document classified as Blue Bird, a `company_name` match
whose raw value does not contain the fragment `"blue bird"`
(case-insensitively) is discarded by the per-match filter, so it emits no
candidate; in particular an incidental `"Apple Inc."` match in such a
document produces no candidate at all. -/
theorem C6_entity_filter :
    (∀ (text document_name : String) (m : DE.RegexMatch),
      (DE.entityFlags text document_name).bluebird = true →
      m.field = "company_name" →
      containsS (lowerS m.group1) "blue bird" = false →
      DE.processCompanyMatch (DE.entityFlags text document_name) document_name m = none) ∧
    DE.extract_data "Blue Bird Corporation reported results" "10k.txt" []
      [⟨"company_name", "Apple Inc.", "Apple Inc. reported"⟩] = [] := by
  refine ⟨?_, by decide⟩
  intro text dn m hbb hfield hnc
  simp only [DE.processCompanyMatch]
  by_cases hlen : (pyStripS m.group1).length < 3
  · rw [if_pos hlen]
  · rw [if_neg hlen]
    have hrc : containsS (lowerS (pyStripS ⟨DE.stripLeadingArticle
        (pyStripS m.group1).data⟩)) "blue bird" = false := by
      rw [Bool.eq_false_iff]
      intro hc
      have := containsS_of_clean hc
      rw [hnc] at this
      cases this
    have hclean : DE.cleanValidateDE (DE.entityFlags text dn) m.field
        (pyStripS m.group1) = none := by
      rw [hfield]
      unfold DE.cleanValidateDE
      rw [if_pos rfl]
      simp only [DE.cleanCompanyName]
      by_cases h1 : ((pyStripS m.group1).length < 5 ||
          countChar ' ' (pyStripS m.group1).data > 10) = true
      · rw [if_pos h1]
      · rw [if_neg h1, if_pos]
        rw [hbb, hrc]
        rfl
    rw [hclean]

/-- C6 (witness): the per-match filter applied to the incidental
`"Apple Inc."` company-name match in a Blue Bird document. -/
theorem C6_witness :
    DE.processCompanyMatch
      (DE.entityFlags "Blue Bird Corporation reported results" "10k.txt") "10k.txt"
      ⟨"company_name", "Apple Inc.", "Apple Inc. reported"⟩ = none :=
  C6_entity_filter.1 "Blue Bird Corporation reported results" "10k.txt" _
    (by decide) rfl (by decide)

/-! ## C7 — enrichment failure passes the map through unchanged -/

set_option maxRecDepth 8000 in
/-- C7: when the external market-data lookup raises or returns no data,
both enrichment implementations return the consolidated map unchanged. -/
theorem C7_enrichment_failure :
    (∀ (consolidated : List (String × String))
      (r : Except String (List (String × String))),
      (∃ e, r = Except.error e) ∨ r = Except.ok [] →
      EAE.enhanced_yfinance_integration consolidated r = consolidated) ∧
    (∀ (extracted : List (String × String)) (arg : Option String)
      (r : Except String (List (String × String))),
      (∃ e, r = Except.error e) ∨ r = Except.ok [] →
      AE.enhance_with_yfinance_data extracted arg r = extracted) := by
  constructor
  · rintro consolidated r hr
    rcases hr with ⟨e, rfl⟩ | rfl
    · simp only [EAE.enhanced_yfinance_integration]
      split_ifs <;> rfl
    · simp only [EAE.enhanced_yfinance_integration, List.isEmpty_nil, if_true]
      split_ifs <;> rfl
  · rintro extracted arg r hr
    rcases hr with ⟨e, rfl⟩ | rfl
    · simp only [AE.enhance_with_yfinance_data]
      split_ifs <;> rfl
    · simp only [AE.enhance_with_yfinance_data]
      split_ifs <;> rfl

/-- C7 (witness): an erroring lookup and an empty lookup on concrete
maps. -/
theorem C7_witness :
    EAE.enhanced_yfinance_integration [("stock_symbol", "BLBD"), ("revenue", "$1.20B")]
      (Except.error "network down") = [("stock_symbol", "BLBD"), ("revenue", "$1.20B")] ∧
    AE.enhance_with_yfinance_data [("stock_symbol", "BLBD")] none (Except.ok []) =
      [("stock_symbol", "BLBD")] :=
  ⟨C7_enrichment_failure.1 _ _ (Or.inl ⟨"network down", rfl⟩),
   C7_enrichment_failure.2 _ none _ (Or.inr rfl)⟩

/-! ## C10 — the BLBD default symbol -/

/-- C10 (counterexample): with a `None` symbol argument and a
`stock_symbol` entry that is present but empty, the lookup symbol is the
empty string (dict `.get` only falls back to `"BLBD"` when the key is
absent), so the external lookup is skipped: a non-empty lookup result
changes nothing. -/
theorem C10_counterexample :
    AE.computeLookupSymbol none [("stock_symbol", "")] = "" ∧
    AE.enhance_with_yfinance_data [("stock_symbol", "")] none
      (Except.ok [("market_cap", "$1B")]) = [("stock_symbol", "")] :=
  ⟨by decide, by decide⟩

/-- C10 (amended): the hard-coded default `"BLBD"` is used exactly when
the symbol argument is `None`/empty and the extracted map has no
`stock_symbol` key at all; then the lookup is attempted (its result is
merged into the missing fields). -/
theorem C10_amended (extracted : List (String × String)) (arg : Option String)
    (yf : List (String × String)) (harg : arg = none ∨ arg = some "")
    (hkey : AE.lookupStr extracted "stock_symbol" = none) :
    AE.computeLookupSymbol arg extracted = "BLBD" ∧
    AE.enhance_with_yfinance_data extracted arg (Except.ok yf) =
      AE.fillMissing extracted yf := by
  have hsym : AE.computeLookupSymbol arg extracted = "BLBD" := by
    unfold AE.computeLookupSymbol
    rw [hkey]
    rcases harg with rfl | rfl <;> decide
  refine ⟨hsym, ?_⟩
  simp only [AE.enhance_with_yfinance_data]
  rw [hsym, if_pos]
  decide

/-- C10 (witness): the amended statement applied to a map without a
`stock_symbol` key. -/
theorem C10_witness :
    AE.computeLookupSymbol none [("revenue", "$1.20B")] = "BLBD" ∧
    AE.enhance_with_yfinance_data [("revenue", "$1.20B")] none
      (Except.ok [("market_cap", "$2B")]) =
      AE.fillMissing [("revenue", "$1.20B")] [("market_cap", "$2B")] :=
  C10_amended _ none _ (Or.inl rfl) (by decide)


end FinAuto
